import Mathlib

/-!
Verification of the batch deployment pipeline of
`src/pathahead/deployment_orchestrator.py`: identifier allocation,
load distribution, batch partitioning, the per-batch pipeline and
fail-fast run loop.  Pure control flow and data manipulation are
translated directly; external effects (subprocess results, file
existence, exceptions raised by collaborators) appear as explicit
inputs, and Python exceptions are modelled with `Except`/`Option`.
-/

/-- `VMTemplate` dataclass. -/
structure VMTemplate where
  name : String
  vm_id : Nat
  os_type : String
  cpu_cores : Nat
  memory_mb : Nat
  disk_size_gb : Nat
deriving Repr, DecidableEq

/-- `ProxmoxNode` dataclass (capacity fields carried but never consulted
by the distribution rule, as in the source). -/
structure ProxmoxNode where
  name : String
  hostname : String
  available_cores : Nat
  available_memory_gb : Nat
  available_storage_gb : Nat
deriving Repr, DecidableEq

/-- `User` dataclass.  The mutable `vm_assignments` field is not stored
here; the assignment computed by `calculate_load_distribution` is
modelled as a separate function of the roster position. -/
structure User where
  username : String
  email : String
  full_name : String
  department : String
deriving Repr, DecidableEq

/-! ### VM identifier allocator (`get_next_available_vm_id`) -/

/-- The per-node `pvesh` queries of `get_next_available_vm_id`:
`none` models a node whose query raised.  The whole collection is run
inside one `try`, so any failure discards everything gathered so far. -/
def collect_existing_ids : List (Option (List Nat)) → Option (List Nat)
  | [] => some []
  | none :: _ => none
  | some ids :: rest => (collect_existing_ids rest).map (fun acc => ids ++ acc)

lemma le_foldr_max (l : List Nat) (x : Nat) (h : x ∈ l) : x ≤ l.foldr max 0 := by
  induction l with
  | nil => cases h
  | cons a l ih =>
    rcases List.mem_cons.mp h with h | h
    · subst h; exact le_max_left _ _
    · exact le_trans (ih h) (le_max_right _ _)

/-- The `while current_id in existing_ids: current_id += 1` loop. -/
def next_free (existing : List Nat) (cur : Nat) : Nat :=
  if cur ∈ existing then next_free existing (cur + 1) else cur
termination_by existing.foldr max 0 + 1 - cur
decreasing_by
  rename_i h
  have := le_foldr_max existing cur h
  omega

/-- `get_next_available_vm_id(self, start_id)`: query all nodes for
existing ids, then walk up from `start_id` past used ids; on any query
failure log a warning and return `start_id` unchanged. -/
def get_next_available_vm_id (queries : List (Option (List Nat))) (start_id : Nat) : Nat :=
  match collect_existing_ids queries with
  | some existing_ids => next_free existing_ids start_id
  | none => start_id

/-! ### `generate_vm_ids` -/

/-- Python `dict` assignment `m[k] = v`: update in place when the key is
present, otherwise append (insertion order preserved). -/
def dictInsert (m : List (String × Nat)) (k : String) (v : Nat) : List (String × Nat) :=
  if m.any (fun p => p.1 == k) then
    m.map (fun p => if p.1 == k then (p.1, v) else p)
  else
    m ++ [(k, v)]

/-- The keys `f"{user.username}_{vm_type}"` produced by the nested
`for user in self.users: for vm_type in self.templates.keys()` loops,
in iteration order.  `tnames` stands for `self.templates.keys()`. -/
def vm_keys : List User → List String → List String
  | [], _ => []
  | u :: us, tnames =>
      tnames.map (fun t => u.username ++ "_" ++ t) ++ vm_keys us tnames

/-- The loop body of `generate_vm_ids`: insert each key with the running
`current_id`, incrementing the counter for every (user, template) pair. -/
def build_vm_id_map : List String → Nat → List (String × Nat) → List (String × Nat)
  | [], _, m => m
  | k :: ks, cur, m => build_vm_id_map ks (cur + 1) (dictInsert m k cur)

/-- `generate_vm_ids(self, start_id)` with an explicit roster, template
key list and resolved `start_id`. -/
def generate_vm_ids (users : List User) (tnames : List String) (start_id : Nat) :
    List (String × Nat) :=
  build_vm_id_map (vm_keys users tnames) start_id []

/-- The identifier map computed inside `create_terraform_configs`: it
calls `self.generate_vm_ids()` (so `start_id = get_next_available_vm_id(500)`)
over `self.users`, ignoring the `user_batch` argument. -/
def create_terraform_configs_vm_ids (users : List User) (tnames : List String)
    (queries : List (Option (List Nat))) (user_batch : List User) : List (String × Nat) :=
  generate_vm_ids users tnames (get_next_available_vm_id queries 500)

/-- Closed form used to state what `build_vm_id_map` produces on fresh
keys: one entry per key, values consecutive from `cur`. -/
def consecEntries : List String → Nat → List (String × Nat)
  | [], _ => []
  | k :: ks, cur => (k, cur) :: consecEntries ks (cur + 1)

/-! ### Load distribution (`calculate_load_distribution`) -/

/-- Python `node_assignments[k].append(v)`: the key is always one of the
node names, so the entry exists; append to it, leave others alone. -/
def dictAppend (m : List (String × List User)) (k : String) (v : User) :
    List (String × List User) :=
  m.map (fun p => if p.1 == k then (p.1, p.2 ++ [v]) else p)

/-- The node chosen for the user at roster index `i`:
`node_names[i % len(node_names)]`. -/
def user_node (node_names : List String) (i : Nat) : String :=
  node_names.getD (i % node_names.length) ""

/-- `calculate_load_distribution`: start from
`{node.name: [] for node in self.nodes}` and append each user (in roster
order) to the entry of `node_names[i % len(node_names)]`.  `node_names`
stands for `[node.name for node in self.nodes]`; distinct names are
assumed where the dict and the list coincide. -/
def calculate_load_distribution (node_names : List String) (users : List User) :
    List (String × List User) :=
  (List.enum users).foldl
    (fun acc p => dictAppend acc (user_node node_names p.1) p.2)
    (node_names.map (fun n => (n, ([] : List User))))

/-- The per-user `user.vm_assignments` dict built in the same loop:
for the user at roster index `i`, the `j`-th template key
(`enumerate(self.templates.keys())`) maps to
`node_names[(i + j) % len(node_names)]`. -/
def user_vm_assignments (node_names : List String) (tnames : List String) (i : Nat) :
    List (String × String) :=
  (List.enum tnames).map
    (fun p => (p.2, node_names.getD ((i + p.1) % node_names.length) ""))

/-! ### Decimal rendering and batch identifiers (`f"batch_{k:03d}"`) -/

/-- One decimal digit as a character. -/
def decDigit : Nat → Char
  | 0 => '0' | 1 => '1' | 2 => '2' | 3 => '3' | 4 => '4'
  | 5 => '5' | 6 => '6' | 7 => '7' | 8 => '8' | 9 => '9'
  | _ => '*'

/-- Decimal rendering, structurally recursive on a fuel argument
(`fuel > n` always suffices since `n / 10 < n`). -/
def toDecAux : Nat → Nat → List Char
  | 0, _ => []
  | fuel + 1, n =>
    if n < 10 then [decDigit n]
    else toDecAux fuel (n / 10) ++ [decDigit (n % 10)]

/-- Decimal rendering of a natural number, most significant digit first. -/
def toDec (n : Nat) : List Char :=
  toDecAux (n + 1) n

/-- Python `f"{n:03d}"`: decimal rendering left-padded with `'0'` to a
minimum width of three. -/
def pad3 (n : Nat) : String :=
  String.mk (List.replicate (3 - (toDec n).length) '0' ++ toDec n)

/-- The batch identifier `f"batch_{k:03d}"` for the 1-based sequence
number `k`. -/
def batch_id_str (k : Nat) : String :=
  "batch_" ++ pad3 k

/-! ### Batch partitioning and the run loop (`deploy_all_users`) -/

/-- The batches built by `deploy_all_users`:
`for i in range(0, len(users), batch_size): users[i:i+batch_size]`,
paired with `f"batch_{i // batch_size + 1:03d}"`.  The loop index is
`i = k * batch_size`, so `i // batch_size = k` and the iteration count
is `⌈len(users) / batch_size⌉`. -/
def make_batches (users : List User) (batch_size : Nat) : List (List User × String) :=
  (List.range ((users.length + batch_size - 1) / batch_size)).map
    (fun k => ((users.drop (k * batch_size)).take batch_size, batch_id_str (k + 1)))

/-- The run loop of `deploy_all_users`: record each batch outcome in
order and `break` after the first failure.  `deployB` stands for the
outcome of `self.deploy_batch(batch_users, batch_id)`. -/
def run_loop (deployB : List User → String → Bool) :
    List (List User × String) → List (String × Bool)
  | [] => []
  | (bu, bid) :: rest =>
    let s := deployB bu bid
    if s then (bid, s) :: run_loop deployB rest else [(bid, s)]

/-- `deploy_all_users(batch_size)`: partition the roster, then run the
fail-fast loop.  (The `calculate_load_distribution` call preceding the
loop mutates only per-user assignments and does not affect the loop.) -/
def deploy_all_users (users : List User) (batch_size : Nat)
    (deployB : List User → String → Bool) : List (String × Bool) :=
  run_loop deployB (make_batches users batch_size)

/-! ### Ansible playbooks (`run_ansible_playbooks`) -/

/-- One entry of the fixed playbook sequence: whether
`os.path.exists(playbook_path)` holds and whether the
`ansible-playbook` invocation would exit cleanly. -/
structure Playbook where
  name : String
  present : Bool
  exec_ok : Bool
deriving Repr, DecidableEq

/-- `run_ansible_playbooks`: skip absent playbooks (warn, `continue`);
a failing execution raises `CalledProcessError`, caught by the
surrounding `try` which returns `False`; if the loop finishes,
return `True`. -/
def run_ansible_playbooks : List Playbook → Bool
  | [] => true
  | p :: rest =>
    if !p.present then run_ansible_playbooks rest
    else if p.exec_ok then run_ansible_playbooks rest
    else false

/-- Same control flow as `run_ansible_playbooks`, additionally
recording which playbooks were actually executed (instrumentation used
only to state the abort property). -/
def run_playbooks_trace : List Playbook → Bool × List Playbook
  | [] => (true, [])
  | p :: rest =>
    if !p.present then run_playbooks_trace rest
    else if p.exec_ok then
      let r := run_playbooks_trace rest
      (r.1, p :: r.2)
    else (false, [p])

/-! ### Terraform step (`deploy_terraform_batch`) -/

/-- Outcomes of the external calls made by `deploy_terraform_batch`:
exit status of `terraform init`/`plan`/`apply`/`output`, and whether
`json.loads` on the captured output succeeds. -/
structure TfSteps where
  init_ok : Bool
  plan_ok : Bool
  apply_ok : Bool
  output_ok : Bool
  parse_ok : Bool
deriving Repr, DecidableEq

/-- `deploy_terraform_batch`: save `original_cwd`, `os.chdir(batch_dir)`,
run the terraform sequence (a non-zero exit raises
`CalledProcessError`, caught: the function returns `False`; a
`json.loads` failure is NOT caught and propagates as an error), then in
`finally` restore `os.chdir(original_cwd)` on every path.  Returns
(result, final working directory, working directory of each executed
terraform command). -/
def deploy_terraform_batch (cwd0 : String) (batch_dir : String) (st : TfSteps) :
    Except String Bool × String × List String :=
  let original_cwd := cwd0
  let cwd := batch_dir
  let body : Except String Bool × List String :=
    if !st.init_ok then (Except.ok false, [cwd])
    else if !st.plan_ok then (Except.ok false, [cwd, cwd])
    else if !st.apply_ok then (Except.ok false, [cwd, cwd, cwd])
    else if !st.output_ok then (Except.ok false, [cwd, cwd, cwd, cwd])
    else if !st.parse_ok then (Except.error "json.loads failed", [cwd, cwd, cwd, cwd])
    else (Except.ok true, [cwd, cwd, cwd, cwd])
  (body.1, original_cwd, body.2)

/-! ### Per-batch pipeline (`deploy_batch`) -/

/-- `deploy_batch`: run the four steps inside one `try`; a raising step
(`Except.error`) or a `False` boolean step triggers the `except` branch,
which logs and returns `False`; otherwise return `True`.
`configs` models `create_terraform_configs` (which may raise),
`terraform` the result of `deploy_terraform_batch` (boolean, or an
uncaught error from it), `inventory` `generate_ansible_inventory`
(which re-raises on failure), and `ansible` `run_ansible_playbooks`. -/
def deploy_batch (configs : Except String String) (terraform : Except String Bool)
    (inventory : Except String String) (ansible : Bool) : Bool :=
  match configs with
  | Except.error _ => false
  | Except.ok _ =>
    match terraform with
    | Except.error _ => false
    | Except.ok tf =>
      if !tf then false
      else
        match inventory with
        | Except.error _ => false
        | Except.ok _ => if !ansible then false else true

/-! ### Helper lemmas: allocator -/

lemma next_free_not_mem (l : List Nat) (c : Nat) : next_free l c ∉ l := by
  refine next_free.induct l (fun cur => next_free l cur ∉ l) ?_ ?_ c
  · intro x hx ih
    rw [next_free, if_pos hx]
    exact ih
  · intro x hx
    rw [next_free, if_neg hx]
    exact hx

lemma next_free_ge (l : List Nat) (c : Nat) : c ≤ next_free l c := by
  refine next_free.induct l (fun cur => cur ≤ next_free l cur) ?_ ?_ c
  · intro x hx ih
    rw [next_free, if_pos hx]
    omega
  · intro x hx
    rw [next_free, if_neg hx]

/-! ### Helper lemmas: `generate_vm_ids` closed form -/

lemma dictInsert_fresh (m : List (String × Nat)) (k : String) (v : Nat)
    (h : k ∉ m.map Prod.fst) : dictInsert m k v = m ++ [(k, v)] := by
  have hany : m.any (fun p => p.1 == k) = false := by
    rw [List.any_eq_false]
    intro p hp hpk
    exact h (List.mem_map.mpr ⟨p, hp, eq_of_beq hpk⟩)
  rw [dictInsert, hany]
  rfl

lemma consecEntries_fst (ks : List String) (cur : Nat) :
    (consecEntries ks cur).map Prod.fst = ks := by
  induction ks generalizing cur with
  | nil => simp [consecEntries]
  | cons k ks ih => simp [consecEntries, ih]

lemma consecEntries_length (ks : List String) (cur : Nat) :
    (consecEntries ks cur).length = ks.length := by
  induction ks generalizing cur with
  | nil => simp [consecEntries]
  | cons k ks ih => simp [consecEntries, ih]

lemma consecEntries_snd_bounds (ks : List String) (cur : Nat) (v : Nat)
    (h : v ∈ (consecEntries ks cur).map Prod.snd) :
    cur ≤ v ∧ v < cur + ks.length := by
  induction ks generalizing cur with
  | nil => simp [consecEntries] at h
  | cons k ks ih =>
    simp only [consecEntries, List.map_cons, List.mem_cons] at h
    rcases h with h | h
    · subst h
      simp
    · have := ih (cur + 1) h
      constructor <;> [omega; (simp only [List.length_cons]; omega)]

lemma consecEntries_snd_nodup (ks : List String) (cur : Nat) :
    ((consecEntries ks cur).map Prod.snd).Nodup := by
  induction ks generalizing cur with
  | nil => simp [consecEntries]
  | cons k ks ih =>
    simp only [consecEntries, List.map_cons, List.nodup_cons]
    refine ⟨?_, ih (cur + 1)⟩
    intro hmem
    have := consecEntries_snd_bounds ks (cur + 1) cur hmem
    omega

lemma build_vm_id_map_fresh (ks : List String) (cur : Nat) (m : List (String × Nat))
    (hnd : ks.Nodup) (hfresh : ∀ k ∈ ks, k ∉ m.map Prod.fst) :
    build_vm_id_map ks cur m = m ++ consecEntries ks cur := by
  induction ks generalizing cur m with
  | nil => simp [build_vm_id_map, consecEntries]
  | cons k ks ih =>
    rw [build_vm_id_map, dictInsert_fresh m k cur (hfresh k (List.mem_cons_self k ks))]
    rw [List.nodup_cons] at hnd
    rw [ih (cur + 1) (m ++ [(k, cur)]) hnd.2]
    · simp [consecEntries]
    · intro k' hk'
      simp only [List.map_append, List.mem_append, List.map_cons, List.map_nil,
        List.mem_singleton, not_or]
      exact ⟨hfresh k' (List.mem_cons_of_mem k hk'),
        fun hkk => hnd.1 (hkk ▸ hk')⟩

lemma generate_vm_ids_fresh (users : List User) (tnames : List String) (s : Nat)
    (hnd : (vm_keys users tnames).Nodup) :
    generate_vm_ids users tnames s = consecEntries (vm_keys users tnames) s := by
  rw [generate_vm_ids, build_vm_id_map_fresh _ _ _ hnd (by simp)]
  simp

lemma vm_keys_length (users : List User) (tnames : List String) :
    (vm_keys users tnames).length = users.length * tnames.length := by
  induction users with
  | nil => simp [vm_keys]
  | cons u us ih =>
    simp [vm_keys, ih]
    ring

/-! ### Helper lemmas: load distribution -/

lemma foldl_dictAppend (κ : Nat × User → String) (es : List (Nat × User))
    (m : List (String × List User)) :
    es.foldl (fun acc p => dictAppend acc (κ p) p.2) m
      = m.map (fun q => (q.1, q.2 ++ (es.filter (fun p => κ p == q.1)).map Prod.snd)) := by
  induction es generalizing m with
  | nil => simp
  | cons e es ih =>
    rw [List.foldl_cons, ih, dictAppend, List.map_map]
    apply List.map_congr_left
    intro q _
    by_cases hq : q.1 = κ e
    · have hb : (q.1 == κ e) = true := beq_iff_eq.mpr hq
      have hb' : (κ e == q.1) = true := beq_iff_eq.mpr hq.symm
      simp only [Function.comp, hb, if_true, List.filter_cons, hb', List.map_cons,
        List.append_assoc, List.singleton_append]
    · have hb : (q.1 == κ e) = false := beq_eq_false_iff_ne.mpr hq
      have hb' : (κ e == q.1) = false := beq_eq_false_iff_ne.mpr (Ne.symm hq)
      simp only [Function.comp, hb, if_false, List.filter_cons, hb', Bool.false_eq_true]

lemma calculate_load_distribution_eq (node_names : List String) (users : List User) :
    calculate_load_distribution node_names users
      = node_names.map (fun n =>
          (n, ((List.enum users).filter
                (fun p => user_node node_names p.1 == n)).map Prod.snd)) := by
  rw [calculate_load_distribution, foldl_dictAppend, List.map_map]
  apply List.map_congr_left
  intro n _
  simp [Function.comp]

lemma succ_div_mod (N M : Nat) (hM : 0 < M) :
    (N % M + 1 = M → (N + 1) / M = N / M + 1 ∧ (N + 1) % M = 0) ∧
    (N % M + 1 < M → (N + 1) / M = N / M ∧ (N + 1) % M = N % M + 1) := by
  have hdm := Nat.div_add_mod N M
  constructor
  · intro hs
    have hN1 : N + 1 = M * (N / M + 1) := by
      rw [Nat.mul_add, Nat.mul_one]
      omega
    constructor
    · rw [hN1, Nat.mul_div_cancel_left _ hM]
    · rw [hN1, Nat.mul_mod_right]
  · intro hs
    have hN1 : N + 1 = M * (N / M) + (N % M + 1) := by omega
    constructor
    · rw [hN1, Nat.mul_add_div hM, Nat.div_eq_of_lt hs, Nat.add_zero]
    · rw [hN1, Nat.mul_add_mod, Nat.mod_eq_of_lt hs]

lemma countP_mod_range (N M r : Nat) (hM : 0 < M) (hrM : r < M) :
    (List.range N).countP (fun i => i % M == r)
      = N / M + if r < N % M then 1 else 0 := by
  induction N with
  | zero => simp
  | succ N ih =>
    rw [List.range_succ, List.countP_append, ih]
    have hmodlt : N % M < M := Nat.mod_lt N hM
    have hsd := succ_div_mod N M hM
    have h1 : List.countP (fun i => i % M == r) [N] = if N % M = r then 1 else 0 := by
      by_cases hr : N % M = r
      · have hb : ((N % M == r) : Bool) = true := beq_iff_eq.mpr hr
        simp [List.countP_cons, hb, hr]
      · have hb : ((N % M == r) : Bool) = false := beq_eq_false_iff_ne.mpr hr
        simp [List.countP_cons, hb, hr]
    rw [h1]
    by_cases hs : N % M + 1 = M
    · obtain ⟨hdiv, hmod0⟩ := hsd.1 hs
      split_ifs <;> omega
    · obtain ⟨hdiv, hmods⟩ := hsd.2 (by omega)
      split_ifs <;> omega

lemma ceil_div_eq (N M : Nat) (hM : 0 < M) :
    (N + M - 1) / M = N / M + if 0 < N % M then 1 else 0 := by
  have hdm := Nat.div_add_mod N M
  have hmod : N % M < M := Nat.mod_lt N hM
  by_cases h0 : N % M = 0
  · have he : N + M - 1 = M * (N / M) + (M - 1) := by omega
    rw [he, Nat.mul_add_div hM, Nat.div_eq_of_lt (show M - 1 < M by omega)]
    simp [h0]
  · have he : N + M - 1 = M * (N / M + 1) + (N % M - 1) := by
      rw [Nat.mul_add, Nat.mul_one]
      omega
    rw [he, Nat.mul_add_div hM, Nat.div_eq_of_lt (show N % M - 1 < M by omega)]
    have hp : 0 < N % M := by omega
    simp [hp]

lemma node_entry_length (node_names : List String) (users : List User)
    (hnd : node_names.Nodup) (r : Nat) (hr : r < node_names.length) :
    (((List.enum users).filter
        (fun p => user_node node_names p.1 == node_names[r])).map Prod.snd).length
      = users.length / node_names.length
        + if r < users.length % node_names.length then 1 else 0 := by
  have hM : 0 < node_names.length := by omega
  rw [List.length_map, ← List.countP_eq_length_filter]
  have h1 : List.countP (fun p => user_node node_names p.1 == node_names[r])
      (List.enum users)
      = List.countP (fun i => user_node node_names i == node_names[r])
        ((List.enum users).map Prod.fst) := by
    rw [List.countP_map]
    rfl
  rw [h1, List.enum_map_fst]
  have h2 : List.countP (fun i => user_node node_names i == node_names[r])
      (List.range users.length)
      = List.countP (fun i => i % node_names.length == r) (List.range users.length) := by
    rw [List.countP_eq_length_filter, List.countP_eq_length_filter]
    rw [List.filter_congr]
    intro i _
    have him : i % node_names.length < node_names.length := Nat.mod_lt i hM
    rw [user_node, List.getD_eq_getElem node_names "" him]
    by_cases hir : i % node_names.length = r
    · have hb1 : ((i % node_names.length == r) : Bool) = true := beq_iff_eq.mpr hir
      have hb2 : (node_names[i % node_names.length] == node_names[r]) = true := by
        rw [beq_iff_eq]
        exact hir ▸ rfl
      rw [hb1, hb2]
    · have hb1 : ((i % node_names.length == r) : Bool) = false :=
        beq_eq_false_iff_ne.mpr hir
      have hb2 : (node_names[i % node_names.length] == node_names[r]) = false := by
        rw [beq_eq_false_iff_ne]
        intro he
        exact hir (hnd.getElem_inj_iff.mp he)
      rw [hb1, hb2]
  rw [h2, countP_mod_range _ _ _ hM hr]

/-! ### Helper lemmas: decimal rendering -/

/-- Numeric value of a digit character (inverse of `decDigit`). -/
def charVal : Char → Nat
  | '0' => 0 | '1' => 1 | '2' => 2 | '3' => 3 | '4' => 4
  | '5' => 5 | '6' => 6 | '7' => 7 | '8' => 8 | '9' => 9
  | _ => 10

lemma toDecAux_fuel_irrel : ∀ (n f1 f2 : Nat), n < f1 → n < f2 → toDecAux f1 n = toDecAux f2 n := by
  intro n
  induction n using Nat.strong_induction_on with
  | _ n ih =>
    intro f1 f2 h1 h2
    match f1, f2 with
    | g1 + 1, g2 + 1 =>
      rw [toDecAux, toDecAux]
      by_cases h : n < 10
      · rw [if_pos h, if_pos h]
      · rw [if_neg h, if_neg h]
        have hdn : n / 10 < n := Nat.div_lt_self (by omega) (by omega)
        rw [ih (n / 10) hdn g1 g2 (by omega) (by omega)]

lemma toDec_eq (n : Nat) :
    toDec n = if n < 10 then [decDigit n] else toDec (n / 10) ++ [decDigit (n % 10)] := by
  rw [toDec, toDecAux]
  by_cases h : n < 10
  · rw [if_pos h, if_pos h]
  · rw [if_neg h, if_neg h]
    have hdn : n / 10 < n := Nat.div_lt_self (by omega) (by omega)
    rw [toDec, toDecAux_fuel_irrel (n / 10) n (n / 10 + 1) hdn (by omega)]

/-- Reading a digit string back as a number (used only to prove `toDec`
injective). -/
def ofDec (acc : Nat) : List Char → Nat
  | [] => acc
  | c :: cs => ofDec (acc * 10 + charVal c) cs

lemma charVal_decDigit : ∀ d, d < 10 → charVal (decDigit d) = d := by decide

lemma ofDec_append (acc : Nat) (xs ys : List Char) :
    ofDec acc (xs ++ ys) = ofDec (ofDec acc xs) ys := by
  induction xs generalizing acc with
  | nil => rfl
  | cons c cs ih => simp [ofDec, ih]

lemma ofDec_toDec (n : Nat) : ∀ acc, ofDec acc (toDec n) = acc * 10 ^ (toDec n).length + n := by
  induction n using Nat.strong_induction_on with
  | _ n ih =>
    intro acc
    by_cases h : n < 10
    · rw [toDec_eq, if_pos h]
      simp [ofDec, charVal_decDigit n h]
    · rw [toDec_eq, if_neg h]
      rw [ofDec_append]
      have hda : n / 10 < n := Nat.div_lt_self (by omega) (by omega)
      rw [ih (n / 10) hda]
      have hdm : 10 * (n / 10) + n % 10 = n := Nat.div_add_mod n 10
      have hm10 : n % 10 < 10 := Nat.mod_lt n (by omega)
      simp only [ofDec, charVal_decDigit (n % 10) hm10, List.length_append,
        List.length_singleton]
      rw [pow_succ]
      set A := acc * 10 ^ (toDec (n / 10)).length with hA
      rw [← Nat.mul_assoc]
      omega

lemma toDec_injective (a b : Nat) (h : toDec a = toDec b) : a = b := by
  have ha := ofDec_toDec a 0
  have hb := ofDec_toDec b 0
  rw [h] at ha
  omega

lemma toDec_ne_nil (n : Nat) : toDec n ≠ [] := by
  rw [toDec_eq]
  by_cases h : n < 10
  · rw [if_pos h]
    simp
  · rw [if_neg h]
    simp

lemma toDec_length_pos (n : Nat) : 0 < (toDec n).length :=
  List.length_pos.mpr (toDec_ne_nil n)

lemma toDec_length_small (n : Nat) (h : n < 10) : (toDec n).length = 1 := by
  rw [toDec_eq, if_pos h]
  rfl

lemma toDec_length_large (n : Nat) (h : ¬ n < 10) : 2 ≤ (toDec n).length := by
  rw [toDec_eq, if_neg h]
  rw [List.length_append]
  have := toDec_length_pos (n / 10)
  simp only [List.length_singleton]
  omega

lemma decDigit_ne_zero : ∀ d, d < 10 → 1 ≤ d → decDigit d ≠ '0' := by decide

lemma toDec_head_ne_zero (n : Nat) (hn : 1 ≤ n) (h0 : 0 < (toDec n).length) :
    (toDec n)[0] ≠ '0' := by
  induction n using Nat.strong_induction_on with
  | _ n ih =>
    by_cases h : n < 10
    · have he : toDec n = [decDigit n] := by rw [toDec_eq, if_pos h]
      simp only [he, List.getElem_cons_zero]
      exact decDigit_ne_zero n h hn
    · have he : toDec n = toDec (n / 10) ++ [decDigit (n % 10)] := by
        rw [toDec_eq, if_neg h]
      have hlen : 0 < (toDec (n / 10)).length := toDec_length_pos (n / 10)
      have : (toDec n)[0] = (toDec (n / 10))[0] := by
        simp only [he]
        exact List.getElem_append_left hlen
      rw [this]
      exact ih (n / 10) (Nat.div_lt_self (by omega) (by omega)) (by omega) hlen

lemma pad3_unequal_lengths (a b : Nat) (hlt : (toDec a).length < (toDec b).length)
    (h : List.replicate (3 - (toDec a).length) '0' ++ toDec a
       = List.replicate (3 - (toDec b).length) '0' ++ toDec b) : False := by
  have hla : 1 ≤ (toDec a).length := toDec_length_pos a
  have hlb : 1 ≤ (toDec b).length := toDec_length_pos b
  have hlen := congrArg List.length h
  simp only [List.length_append, List.length_replicate] at hlen
  by_cases hb3 : (toDec b).length ≤ 3
  · have hb10 : ¬ b < 10 := by
      intro hb
      have := toDec_length_small b hb
      omega
    have hp_lt : 3 - (toDec b).length < 3 - (toDec a).length := by omega
    have hptot : 3 - (toDec b).length
        < (List.replicate (3 - (toDec a).length) '0' ++ toDec a).length := by
      simp only [List.length_append, List.length_replicate]
      omega
    have h0 : (List.replicate (3 - (toDec a).length) '0' ++ toDec a)[3 - (toDec b).length] = '0' := by
      rw [List.getElem_append_left (by simpa using hp_lt)]
      exact List.getElem_replicate _ _
    have h1 := List.getElem_of_eq h hptot
    rw [h0] at h1
    rw [List.getElem_append_right (by simp)] at h1
    have hlb0 : 0 < (toDec b).length := by omega
    have hz : (toDec b)[0] = '0' := by
      simp only [List.length_replicate, Nat.sub_self] at h1
      exact h1.symm
    exact toDec_head_ne_zero b (by omega) hlb0 hz
  · omega

lemma pad3_injective (a b : Nat) (h : pad3 a = pad3 b) : a = b := by
  have hd : List.replicate (3 - (toDec a).length) '0' ++ toDec a
      = List.replicate (3 - (toDec b).length) '0' ++ toDec b := congrArg String.data h
  rcases Nat.lt_trichotomy (toDec a).length (toDec b).length with hlt | heq | hgt
  · exact absurd hd (by intro hh; exact pad3_unequal_lengths a b hlt hh)
  · have := List.append_inj hd (by simp [heq])
    exact toDec_injective a b this.2
  · exact absurd hd.symm (by intro hh; exact pad3_unequal_lengths b a hgt hh)

lemma batch_id_str_injective (a b : Nat) (h : batch_id_str a = batch_id_str b) : a = b := by
  apply pad3_injective
  apply String.ext
  have hd := congrArg String.data h
  rw [batch_id_str, batch_id_str, String.data_append, String.data_append] at hd
  exact List.append_cancel_left hd

/-! ### Helper lemmas: batch partitioning -/

lemma flatten_chunks_aux (B : Nat) (hB : 0 < B) :
    ∀ (n : Nat) (l : List User), l.length ≤ n →
      ((List.range ((l.length + B - 1) / B)).map
        (fun k => (l.drop (k * B)).take B)).flatten = l := by
  intro n
  induction n with
  | zero =>
    intro l hl
    have hnil : l = [] := List.eq_nil_of_length_eq_zero (by omega)
    subst hnil
    simp [Nat.div_eq_of_lt (show 0 + B - 1 < B by omega)]
  | succ n ih =>
    intro l hl
    by_cases hnil : l = []
    · subst hnil
      simp [Nat.div_eq_of_lt (show 0 + B - 1 < B by omega)]
    · have hlen : 1 ≤ l.length := List.length_pos.mpr hnil
      have hnb : (l.length + B - 1) / B = (l.length - 1) / B + 1 := by
        have he : l.length + B - 1 = (l.length - 1) + B := by omega
        rw [he, Nat.add_div_right _ hB]
      rw [hnb, List.range_succ_eq_map, List.map_cons, List.map_map, List.flatten_cons]
      have hhead : (l.drop (0 * B)).take B = l.take B := by
        rw [Nat.zero_mul, List.drop_zero]
      rw [hhead]
      have htail : (List.range ((l.length - 1) / B)).map
            ((fun k => (l.drop (k * B)).take B) ∘ Nat.succ)
          = (List.range (((l.drop B).length + B - 1) / B)).map
            (fun k => ((l.drop B).drop (k * B)).take B) := by
        have hm : ((l.drop B).length + B - 1) / B = (l.length - 1) / B := by
          rw [List.length_drop]
          by_cases hlb : B ≤ l.length
          · congr 1
            omega
          · have e1 : l.length - B = 0 := by omega
            rw [e1, Nat.div_eq_of_lt (by omega), Nat.div_eq_of_lt (by omega)]
        rw [hm]
        apply List.map_congr_left
        intro k _
        simp only [Function.comp, List.drop_drop]
        have : B + k * B = Nat.succ k * B := by
          rw [Nat.succ_mul]
          omega
        rw [this]
      rw [htail, ih (l.drop B) (by rw [List.length_drop]; omega)]
      exact List.take_append_drop B l

lemma make_batches_flatten (users : List User) (B : Nat) (hB : 0 < B) :
    ((make_batches users B).map Prod.fst).flatten = users := by
  rw [make_batches, List.map_map]
  exact flatten_chunks_aux B hB users.length users le_rfl

lemma make_batches_length (users : List User) (B : Nat) :
    (make_batches users B).length = (users.length + B - 1) / B := by
  rw [make_batches, List.length_map, List.length_range]

lemma make_batches_getElem (users : List User) (B : Nat) (i : Nat)
    (hi : i < (make_batches users B).length) :
    (make_batches users B)[i]
      = ((users.drop (i * B)).take B, batch_id_str (i + 1)) := by
  simp only [make_batches, List.getElem_map, List.getElem_range]

lemma make_batches_snd (users : List User) (B : Nat) :
    (make_batches users B).map Prod.snd
      = (List.range ((users.length + B - 1) / B)).map (fun k => batch_id_str (k + 1)) := by
  rw [make_batches, List.map_map]
  rfl

lemma make_batches_ids_nodup (users : List User) (B : Nat) :
    ((make_batches users B).map Prod.snd).Nodup := by
  rw [make_batches_snd]
  apply List.Nodup.map _ (List.nodup_range _)
  intro a b hab
  have := batch_id_str_injective (a + 1) (b + 1) hab
  omega

/-! ### Helper lemmas: run loop -/

lemma run_loop_fail_fast (f : List User → String → Bool) :
    ∀ (k : Nat) (bs : List (List User × String)) (hk : k < bs.length),
      f (bs[k]).1 (bs[k]).2 = false →
      (∀ i, i < k → ∀ (hib : i < bs.length), f (bs[i]).1 (bs[i]).2 = true) →
      run_loop f bs = (bs.take (k + 1)).map (fun b => (b.2, f b.1 b.2)) := by
  intro k
  induction k with
  | zero =>
    intro bs hk hfail _
    match bs, hk with
    | (bu, bid) :: rest, _ =>
      simp only [List.getElem_cons_zero] at hfail
      rw [run_loop]
      simp [hfail]
  | succ k ih =>
    intro bs hk hfail hprev
    match bs, hk with
    | (bu, bid) :: rest, hk2 =>
      have h0 : f bu bid = true := by
        have := hprev 0 (by omega) (by simp)
        simpa using this
      rw [run_loop]
      simp only [h0, if_true]
      have hk' : k < rest.length := by
        simp only [List.length_cons] at hk2
        omega
      have hfail' : f (rest[k]).1 (rest[k]).2 = false := by
        simpa using hfail
      have hprev' : ∀ i, i < k → ∀ (hib : i < rest.length),
          f (rest[i]).1 (rest[i]).2 = true := by
        intro i hi hib
        have := hprev (i + 1) (by omega) (by simp; omega)
        simpa using this
      rw [ih rest hk' hfail' hprev']
      simp [h0]

lemma collect_existing_ids_none (queries : List (Option (List Nat)))
    (hfail : none ∈ queries) : collect_existing_ids queries = none := by
  induction queries with
  | nil => cases hfail
  | cons q qs ih =>
    match q with
    | none => rfl
    | some ids =>
      have hq : none ∈ qs := by
        rcases List.mem_cons.mp hfail with h | h
        · cases h
        · exact h
      rw [collect_existing_ids, ih hq]
      rfl

/-- C6: if the existing-identifier query fails on any node (partially or
totally), `get_next_available_vm_id` does not abort: it returns the
floor value `start_id` unchanged, leaving the caller to proceed as if
no identifiers were in use. -/
theorem allocator_degraded_C6 (queries : List (Option (List Nat))) (start_id : Nat)
    (hfail : none ∈ queries) :
    get_next_available_vm_id queries start_id = start_id := by
  rw [get_next_available_vm_id, collect_existing_ids_none queries hfail]

/-- C6 witness: one failing node query, floor 500. -/
theorem allocator_degraded_C6_witness :
    none ∈ ([none, some [500, 501]] : List (Option (List Nat)))
    ∧ get_next_available_vm_id [none, some [500, 501]] 500 = 500 :=
  ⟨by decide, allocator_degraded_C6 [none, some [500, 501]] 500 (by decide)⟩

/-- C8: every failure inside the per-batch pipeline — a raising
descriptor-generation step, a failed or raising provisioning step, a
raising inventory derivation, or a failed configuration step — is
converted by `deploy_batch` into the boolean outcome `false`; the
result is always a boolean (`true` exactly when every step succeeded),
never a propagated exception. -/
theorem deploy_batch_C8 (configs : Except String String) (terraform : Except String Bool)
    (inventory : Except String String) (ansible : Bool) :
    (deploy_batch configs terraform inventory ansible = true
      ↔ (∃ d, configs = Except.ok d) ∧ terraform = Except.ok true
        ∧ (∃ f, inventory = Except.ok f) ∧ ansible = true)
    ∧ (deploy_batch configs terraform inventory ansible = true
        ∨ deploy_batch configs terraform inventory ansible = false) := by
  refine ⟨?_, Bool.eq_false_or_eq_true _⟩
  cases configs with
  | error e => simp [deploy_batch]
  | ok d =>
    cases terraform with
    | error e => simp [deploy_batch]
    | ok tf =>
      cases tf with
      | false => simp [deploy_batch]
      | true =>
        cases inventory with
        | error e => simp [deploy_batch]
        | ok f =>
          cases ansible with
          | false => simp [deploy_batch]
          | true => simp [deploy_batch]

/-- C9: `deploy_terraform_batch` runs every terraform command inside the
batch directory it switched to, and the `finally` clause restores the
original working directory on every path — success, caught provisioning
failure, and uncaught output-parsing failure alike. -/
theorem terraform_cwd_C9 (cwd0 batch_dir : String) (st : TfSteps) :
    (deploy_terraform_batch cwd0 batch_dir st).2.1 = cwd0
    ∧ (∀ d ∈ (deploy_terraform_batch cwd0 batch_dir st).2.2, d = batch_dir)
    ∧ (deploy_terraform_batch cwd0 batch_dir st).2.2 ≠ [] := by
  obtain ⟨i, p, a, o, pr⟩ := st
  cases i <;> cases p <;> cases a <;> cases o <;> cases pr <;>
    simp [deploy_terraform_batch]

lemma run_eq_trace_all (l : List Playbook) :
    run_ansible_playbooks l = (run_playbooks_trace l).2.all (fun q => q.exec_ok) := by
  induction l with
  | nil => rfl
  | cons p rest ih =>
    by_cases hp : p.present
    · by_cases hok : p.exec_ok
      · rw [run_ansible_playbooks, run_playbooks_trace]
        simp [hp, hok, ih]
      · rw [run_ansible_playbooks, run_playbooks_trace]
        simp [hp, hok]
    · rw [run_ansible_playbooks, run_playbooks_trace]
      simp [hp, ih]

lemma run_skip_absent (pre : List Playbook)
    (hpre : ∀ q ∈ pre, q.present = true → q.exec_ok = true) (rest : List Playbook) :
    run_ansible_playbooks (pre ++ rest) = run_ansible_playbooks rest
    ∧ (run_playbooks_trace (pre ++ rest)).2
        = pre.filter (fun q => q.present) ++ (run_playbooks_trace rest).2 := by
  induction pre with
  | nil => simp
  | cons q pre ih =>
    have hq := hpre q (List.mem_cons_self q pre)
    have hpre' : ∀ q' ∈ pre, q'.present = true → q'.exec_ok = true :=
      fun q' hq' => hpre q' (List.mem_cons_of_mem q hq')
    obtain ⟨ih1, ih2⟩ := ih hpre'
    by_cases hp : q.present
    · have hok := hq hp
      constructor
      · rw [List.cons_append, run_ansible_playbooks]
        simp [hp, hok, ih1]
      · rw [List.cons_append, run_playbooks_trace]
        simp [hp, hok, ih2, List.filter_cons]
    · constructor
      · rw [List.cons_append, run_ansible_playbooks]
        simp [hp, ih1]
      · rw [List.cons_append, run_playbooks_trace]
        simp [hp, ih2, List.filter_cons]

/-- C7: in the fixed playbook sequence, an absent playbook is skipped
and the loop continues, while a present playbook whose execution fails
makes `run_ansible_playbooks` return `false`, with the execution trace
stopping at that playbook (nothing after it runs); in general the step
returns `true` exactly when every playbook it executed succeeded. -/
theorem playbooks_C7 (pre post : List Playbook) (p : Playbook)
    (hpre : ∀ q ∈ pre, q.present = true → q.exec_ok = true)
    (hp : p.present = true) (hfail : p.exec_ok = false) :
    run_ansible_playbooks (pre ++ p :: post) = false
    ∧ (run_playbooks_trace (pre ++ p :: post)).2
        = pre.filter (fun q => q.present) ++ [p]
    ∧ (∀ l : List Playbook,
        run_ansible_playbooks l = (run_playbooks_trace l).2.all (fun q => q.exec_ok))
    ∧ (∀ (q : Playbook) (l : List Playbook), q.present = false →
        run_ansible_playbooks (q :: l) = run_ansible_playbooks l) := by
  obtain ⟨h1, h2⟩ := run_skip_absent pre hpre (p :: post)
  have hrest : run_ansible_playbooks (p :: post) = false := by
    rw [run_ansible_playbooks]
    simp [hp, hfail]
  have htrest : (run_playbooks_trace (p :: post)).2 = [p] := by
    rw [run_playbooks_trace]
    simp [hp, hfail]
  refine ⟨by rw [h1, hrest], by rw [h2, htrest], run_eq_trace_all, ?_⟩
  intro q l hq
  rw [run_ansible_playbooks]
  simp [hq]

/-- C7 witness: an absent playbook, a succeeding one, a failing one and
a trailing one that is never reached. -/
theorem playbooks_C7_witness :
    (∀ q ∈ [(⟨"base_configuration.yml", false, true⟩ : Playbook)],
      q.present = true → q.exec_ok = true)
    ∧ (⟨"guacamole_integration.yml", true, false⟩ : Playbook).present = true
    ∧ (⟨"guacamole_integration.yml", true, false⟩ : Playbook).exec_ok = false
    ∧ run_ansible_playbooks
        ([⟨"base_configuration.yml", false, true⟩]
          ++ (⟨"guacamole_integration.yml", true, false⟩ : Playbook)
            :: [⟨"netbox_integration.yml", true, true⟩]) = false :=
  ⟨by decide, by decide, by decide,
    (playbooks_C7 [⟨"base_configuration.yml", false, true⟩]
      [⟨"netbox_integration.yml", true, true⟩]
      ⟨"guacamole_integration.yml", true, false⟩
      (by decide) (by decide) (by decide)).1⟩

/-- C3: the batches of `deploy_all_users` are contiguous chunks whose
concatenation reproduces the roster in order; there are exactly
⌈N/B⌉ of them (zero for an empty roster), every batch but the last has
exactly `B` members, the last is nonempty and has at most `B`, and the
identifiers are the 1-based zero-padded sequence
`batch_001, batch_002, …` in roster order. -/
theorem batch_partition_C3 (users : List User) (B : Nat) (hB : 0 < B) :
    ((make_batches users B).map Prod.fst).flatten = users
    ∧ (make_batches users B).length = (users.length + B - 1) / B
    ∧ (∀ i (hi : i < (make_batches users B).length), i + 1 < (make_batches users B).length →
        ((make_batches users B)[i]).1.length = B)
    ∧ (0 < users.length →
        ∀ (hlast : (make_batches users B).length - 1 < (make_batches users B).length),
          0 < ((make_batches users B)[(make_batches users B).length - 1]).1.length
          ∧ ((make_batches users B)[(make_batches users B).length - 1]).1.length ≤ B)
    ∧ (make_batches users B).map Prod.snd
        = (List.range ((users.length + B - 1) / B)).map (fun k => batch_id_str (k + 1)) := by
  refine ⟨make_batches_flatten users B hB, make_batches_length users B, ?_, ?_, make_batches_snd users B⟩
  · intro i hi hnext
    rw [make_batches_getElem users B i hi]
    simp only [List.length_take, List.length_drop]
    have hnb : (make_batches users B).length = (users.length + B - 1) / B :=
      make_batches_length users B
    rw [hnb] at hnext
    have h2 : i + 2 ≤ (users.length + B - 1) / B := by omega
    have h3 : (i + 2) * B ≤ users.length + B - 1 :=
      (Nat.le_div_iff_mul_le hB).mp h2
    rw [Nat.add_mul] at h3
    omega
  · intro hpos hlast
    have hnb : (make_batches users B).length = (users.length + B - 1) / B :=
      make_batches_length users B
    have hnb1 : 1 ≤ (users.length + B - 1) / B := by
      rw [Nat.le_div_iff_mul_le hB]
      omega
    rw [make_batches_getElem users B _ hlast]
    simp only [List.length_take, List.length_drop]
    have hmul : ((users.length + B - 1) / B) * B ≤ users.length + B - 1 :=
      Nat.div_mul_le_self _ _
    rw [hnb]
    rw [Nat.sub_one_mul]
    omega

/-- C3 witness: 32 users with batch size 15 give batches of sizes
15, 15, 2 with identifiers batch_001, batch_002, batch_003. -/
theorem batch_partition_C3_witness :
    (0 : Nat) < 15
    ∧ (((make_batches (List.replicate 32 ⟨"u", "e", "f", "d"⟩) 15).map Prod.fst).flatten
        = List.replicate 32 ⟨"u", "e", "f", "d"⟩)
    ∧ (make_batches (List.replicate 32 ⟨"u", "e", "f", "d"⟩) 15).length = (32 + 15 - 1) / 15
    ∧ (make_batches (List.replicate 32 ⟨"u", "e", "f", "d"⟩) 15).map (fun b => b.1.length)
        = [15, 15, 2]
    ∧ (make_batches (List.replicate 32 ⟨"u", "e", "f", "d"⟩) 15).map Prod.snd
        = ["batch_001", "batch_002", "batch_003"] :=
  ⟨by decide,
    (batch_partition_C3 (List.replicate 32 ⟨"u", "e", "f", "d"⟩) 15 (by decide)).1,
    (batch_partition_C3 (List.replicate 32 ⟨"u", "e", "f", "d"⟩) 15 (by decide)).2.1,
    by decide, by decide⟩

/-- C2: if batch `k` (0-based here) is the first whose deployment fails,
`deploy_all_users` records exactly the outcomes of batches `0..k` — the
first `k` successful and batch `k` failed — and the identifier of any
later batch never appears among the recorded outcomes (they are absent,
not inherited failures). -/
theorem run_fail_fast_C2 (users : List User) (B : Nat)
    (f : List User → String → Bool) (k : Nat)
    (hk : k < (make_batches users B).length)
    (hfail : f ((make_batches users B)[k]).1 ((make_batches users B)[k]).2 = false)
    (hprev : ∀ i, i < k → ∀ (hib : i < (make_batches users B).length),
      f ((make_batches users B)[i]).1 ((make_batches users B)[i]).2 = true) :
    deploy_all_users users B f
      = ((make_batches users B).take (k + 1)).map (fun b => (b.2, f b.1 b.2))
    ∧ ∀ j, k < j → ∀ (hj : j < (make_batches users B).length),
        ((make_batches users B)[j]).2 ∉ (deploy_all_users users B f).map Prod.fst := by
  have hmain : deploy_all_users users B f
      = ((make_batches users B).take (k + 1)).map (fun b => (b.2, f b.1 b.2)) := by
    rw [deploy_all_users]
    exact run_loop_fail_fast f k (make_batches users B) hk hfail hprev
  refine ⟨hmain, ?_⟩
  intro j hkj hj hmem
  rw [hmain, List.map_map] at hmem
  have hmem2 : ((make_batches users B)[j]).2
      ∈ ((make_batches users B).take (k + 1)).map Prod.snd := by
    have hcomp : (Prod.fst ∘ fun b : List User × String => (b.2, f b.1 b.2)) = Prod.snd := by
      funext b
      rfl
    rw [hcomp] at hmem
    exact hmem
  obtain ⟨b, hb, hb2⟩ := List.mem_map.mp hmem2
  obtain ⟨i, hi, rfl⟩ := List.mem_iff_getElem.mp hb
  have hilen : i < (make_batches users B).length := by
    have := hi
    simp only [List.length_take] at this
    omega
  have hik : i ≤ k := by
    have := hi
    simp only [List.length_take] at this
    omega
  rw [List.getElem_take] at hb2
  have hnd := make_batches_ids_nodup users B
  have hieq : i = j := by
    have hilen2 : i < ((make_batches users B).map Prod.snd).length := by
      simpa using hilen
    have hjlen2 : j < ((make_batches users B).map Prod.snd).length := by
      simpa using hj
    have hmi : ((make_batches users B).map Prod.snd)[i]
        = ((make_batches users B)[i]).2 := List.getElem_map _
    have hmj : ((make_batches users B).map Prod.snd)[j]
        = ((make_batches users B)[j]).2 := List.getElem_map _
    apply hnd.getElem_inj_iff.mp
    rw [hmi, hmj]
    exact hb2
  omega

/-- C2 witness: four batches of one user each; the second fails, so the
recorded outcomes are exactly batch_001 = true and batch_002 = false,
and batch_003 / batch_004 are absent. -/
theorem run_fail_fast_C2_witness :
    (1 < (make_batches [⟨"a", "", "", ""⟩, ⟨"b", "", "", ""⟩, ⟨"c", "", "", ""⟩,
        ⟨"d", "", "", ""⟩] 1).length)
    ∧ deploy_all_users [⟨"a", "", "", ""⟩, ⟨"b", "", "", ""⟩, ⟨"c", "", "", ""⟩,
        ⟨"d", "", "", ""⟩] 1 (fun _ bid => bid == "batch_001")
      = [("batch_001", true), ("batch_002", false)] := by
  have happ := run_fail_fast_C2 [⟨"a", "", "", ""⟩, ⟨"b", "", "", ""⟩, ⟨"c", "", "", ""⟩,
      ⟨"d", "", "", ""⟩] 1 (fun _ bid => bid == "batch_001") 1
    (by decide) (by decide) (by decide)
  refine ⟨by decide, ?_⟩
  rw [happ.1]
  decide

lemma lookup_map_nodes (node_names : List String) (g : String → List User)
    (n : String) (hn : n ∈ node_names) :
    (node_names.map (fun x => (x, g x))).lookup n = some (g n) := by
  induction node_names with
  | nil => cases hn
  | cons a l ih =>
    by_cases hna : a = n
    · subst hna
      simp [List.lookup]
    · have hn' : n ∈ l := by
        rcases List.mem_cons.mp hn with h | h
        · exact absurd h.symm hna
        · exact h
      have hb : (n == a) = false := beq_eq_false_iff_ne.mpr (fun h => hna h.symm)
      simp [List.lookup, hb, ih hn']

/-- C4: with a non-empty node list, the user at roster index `i` is
appended to the assignment list of node `i mod M`, and the `j`-th
template (in the fixed template-key order) of that user is assigned to
`nodes[(i + j) mod M]`. -/
theorem load_distribution_C4 (node_names tnames : List String) (users : List User)
    (hM : 0 < node_names.length) :
    (∀ i (hi : i < users.length),
      (users[i]) ∈ (((calculate_load_distribution node_names users).lookup
        (user_node node_names i)).getD []))
    ∧ (∀ i j, j < tnames.length →
        (user_vm_assignments node_names tnames i).getD j ("", "")
          = (tnames.getD j "",
              node_names.getD ((i + j) % node_names.length) "")) := by
  constructor
  · intro i hi
    rw [calculate_load_distribution_eq]
    have hmem : user_node node_names i ∈ node_names := by
      rw [user_node, List.getD_eq_getElem node_names "" (Nat.mod_lt i hM)]
      exact List.getElem_mem _
    rw [lookup_map_nodes node_names _ (user_node node_names i) hmem]
    simp only [Option.getD_some]
    apply List.mem_map.mpr
    refine ⟨(i, users[i]), ?_, rfl⟩
    apply List.mem_filter.mpr
    constructor
    · have hie : i < (List.enum users).length := by simpa using hi
      have : (List.enum users)[i] = (i, users[i]) :=
        List.getElem_enum _ _ _
      rw [← this]
      exact List.getElem_mem _
    · simp
  · intro i j hj
    have hlen : j < (user_vm_assignments node_names tnames i).length := by
      rw [user_vm_assignments, List.length_map, List.enum_length]
      exact hj
    rw [List.getD_eq_getElem _ _ hlen, List.getD_eq_getElem _ _ hj]
    simp only [user_vm_assignments, List.getElem_map, List.getElem_enum]

/-- C4 witness: 3 nodes, 7 users, 2 templates; user 0 is assigned node 0
for template 0 and node 1 for template 1. -/
theorem load_distribution_C4_witness :
    (0 < (["n0", "n1", "n2"] : List String).length)
    ∧ (user_vm_assignments ["n0", "n1", "n2"] ["t0", "t1"] 0).getD 0 ("", "")
        = ("t0", "n0")
    ∧ (user_vm_assignments ["n0", "n1", "n2"] ["t0", "t1"] 0).getD 1 ("", "")
        = ("t1", "n1")
    ∧ (∀ i (hi : i < (List.replicate 7 (⟨"u", "", "", ""⟩ : User)).length),
        ((List.replicate 7 (⟨"u", "", "", ""⟩ : User))[i])
          ∈ (((calculate_load_distribution ["n0", "n1", "n2"]
              (List.replicate 7 ⟨"u", "", "", ""⟩)).lookup
            (user_node ["n0", "n1", "n2"] i)).getD [])) := by
  have happ := load_distribution_C4 ["n0", "n1", "n2"] ["t0", "t1"]
    (List.replicate 7 ⟨"u", "", "", ""⟩) (by decide)
  exact ⟨by decide, by decide, by decide, happ.1⟩

/-- C5: with M ≥ 1 distinct nodes, after `calculate_load_distribution`
every node's user list has length ⌊N/M⌋ or ⌈N/M⌉ (written
`(N + M - 1) / M`), i.e. the per-node counts are balanced within 1. -/
theorem load_balance_C5 (node_names : List String) (users : List User)
    (hM : 0 < node_names.length) (hnd : node_names.Nodup) :
    ∀ p ∈ calculate_load_distribution node_names users,
      p.2.length = users.length / node_names.length
      ∨ p.2.length = (users.length + node_names.length - 1) / node_names.length := by
  rw [calculate_load_distribution_eq]
  intro p hp
  obtain ⟨n, hn, rfl⟩ := List.mem_map.mp hp
  obtain ⟨r, hr, rfl⟩ := List.mem_iff_getElem.mp hn
  simp only
  rw [node_entry_length node_names users hnd r hr]
  by_cases hrm : r < users.length % node_names.length
  · right
    rw [ceil_div_eq _ _ hM]
    have hpos : 0 < users.length % node_names.length := by omega
    simp [hpos, hrm]
  · left
    simp [hrm]

/-- C5 witness: 7 users over 3 nodes get per-node counts 3, 2, 2, that
is ⌈7/3⌉ or ⌊7/3⌋. -/
theorem load_balance_C5_witness :
    (0 < (["n0", "n1", "n2"] : List String).length)
    ∧ (["n0", "n1", "n2"] : List String).Nodup
    ∧ (∀ p ∈ calculate_load_distribution ["n0", "n1", "n2"]
        (List.replicate 7 ⟨"u", "", "", ""⟩),
        p.2.length = (List.replicate 7 (⟨"u", "", "", ""⟩ : User)).length / 3
        ∨ p.2.length = ((List.replicate 7 (⟨"u", "", "", ""⟩ : User)).length + 3 - 1) / 3) :=
  ⟨by decide, by decide,
    load_balance_C5 ["n0", "n1", "n2"] (List.replicate 7 ⟨"u", "", "", ""⟩)
      (by decide) (by decide)⟩

/-- C1 counterexample: with existing identifiers {500, 501, 503}, floor
500 and three (user, template) pairs, the allocator skips used
identifiers only when choosing the first one; `generate_vm_ids` then
hands out consecutive values 502, 503, 504 — not {502, 504, 505} — and
503 collides with the existing set, refuting disjointness. -/
theorem allocator_C1_counterexample :
    ((generate_vm_ids [⟨"u1", "", "", ""⟩, ⟨"u2", "", "", ""⟩, ⟨"u3", "", "", ""⟩] ["web"]
        (get_next_available_vm_id [some [500, 501, 503]] 500)).map Prod.snd
      = [502, 503, 504])
    ∧ 503 ∈ (generate_vm_ids [⟨"u1", "", "", ""⟩, ⟨"u2", "", "", ""⟩, ⟨"u3", "", "", ""⟩]
        ["web"] (get_next_available_vm_id [some [500, 501, 503]] 500)).map Prod.snd
    ∧ 503 ∈ [500, 501, 503]
    ∧ (generate_vm_ids [⟨"u1", "", "", ""⟩, ⟨"u2", "", "", ""⟩, ⟨"u3", "", "", ""⟩] ["web"]
        (get_next_available_vm_id [some [500, 501, 503]] 500)).map Prod.snd
      ≠ [502, 504, 505] := by
  have hs : get_next_available_vm_id [some [500, 501, 503]] 500 = 502 := by
    simp [get_next_available_vm_id, collect_existing_ids, next_free]
  rw [hs]
  exact ⟨by decide, by decide, by decide, by decide⟩

/-- C1 amended: when the existing-identifier query succeeds, the
identifiers produced for the roster's (user, template) pairs (with
distinct keys) are pairwise distinct and all ≥ the floor, and the FIRST
of them is not in the existing set; identifiers after the first are
consecutive and are not guaranteed disjoint from the existing set. -/
theorem allocator_C1_amended (queries : List (Option (List Nat))) (existing : List Nat)
    (hq : collect_existing_ids queries = some existing)
    (users : List User) (tnames : List String) (floor : Nat)
    (hnd : (vm_keys users tnames).Nodup) :
    get_next_available_vm_id queries floor = next_free existing floor
    ∧ ((generate_vm_ids users tnames
        (get_next_available_vm_id queries floor)).map Prod.snd).Nodup
    ∧ (∀ v ∈ (generate_vm_ids users tnames
        (get_next_available_vm_id queries floor)).map Prod.snd, floor ≤ v)
    ∧ get_next_available_vm_id queries floor ∉ existing
    ∧ (generate_vm_ids users tnames (get_next_available_vm_id queries floor)).map Prod.snd
        = (consecEntries (vm_keys users tnames)
            (get_next_available_vm_id queries floor)).map Prod.snd := by
  have hgq : get_next_available_vm_id queries floor = next_free existing floor := by
    rw [get_next_available_vm_id, hq]
  refine ⟨hgq, ?_, ?_, ?_, ?_⟩
  · rw [generate_vm_ids_fresh users tnames _ hnd]
    exact consecEntries_snd_nodup _ _
  · intro v hv
    rw [generate_vm_ids_fresh users tnames _ hnd] at hv
    have hb := consecEntries_snd_bounds _ _ _ hv
    have hge := next_free_ge existing floor
    omega
  · rw [hgq]
    exact next_free_not_mem existing floor
  · rw [generate_vm_ids_fresh users tnames _ hnd]

/-- C1 amended witness: the scenario of the counterexample satisfies the
amended guarantees (distinct values ≥ 500, first value 502 unused). -/
theorem allocator_C1_amended_witness :
    collect_existing_ids [some [500, 501, 503]] = some [500, 501, 503]
    ∧ (vm_keys [⟨"u1", "", "", ""⟩, ⟨"u2", "", "", ""⟩, ⟨"u3", "", "", ""⟩] ["web"]).Nodup
    ∧ get_next_available_vm_id [some [500, 501, 503]] 500 ∉ [500, 501, 503] :=
  ⟨by decide, by decide,
    (allocator_C1_amended [some [500, 501, 503]] [500, 501, 503] (by decide)
      [⟨"u1", "", "", ""⟩, ⟨"u2", "", "", ""⟩, ⟨"u3", "", "", ""⟩] ["web"] 500
      (by decide)).2.2.2.1⟩

/-- C10 counterexample: two roster entries with the same username and a
single template collapse to one dict key, so the returned map has one
entry — not one per (user, template) pair — and the surviving value is
101, not the starting identifier 100 (the counter advanced on the
overwritten entry). -/
theorem generate_vm_ids_C10_counterexample :
    generate_vm_ids [⟨"alice", "a@x", "Alice", "eng"⟩, ⟨"alice", "a@x", "Alice", "eng"⟩]
        ["web"] 100
      = [("alice_web", 101)]
    ∧ (generate_vm_ids [⟨"alice", "a@x", "Alice", "eng"⟩, ⟨"alice", "a@x", "Alice", "eng"⟩]
        ["web"] 100).length ≠ 2 * 1 := by
  exact ⟨by decide, by decide⟩

/-- C10 amended: when the derived keys `username_templateName` are
pairwise distinct, `generate_vm_ids` returns exactly one entry per
(user, template) pair over the whole roster, keyed in iteration order,
with consecutive values starting at `start_id` (hence pairwise
distinct); and the map built inside `create_terraform_configs` ignores
the batch argument, so the whole-roster allocation happens even when
generating descriptors for a single batch. -/
theorem generate_vm_ids_C10_amended (users : List User) (tnames : List String)
    (start_id : Nat) (hnd : (vm_keys users tnames).Nodup) :
    generate_vm_ids users tnames start_id = consecEntries (vm_keys users tnames) start_id
    ∧ (generate_vm_ids users tnames start_id).length = users.length * tnames.length
    ∧ (generate_vm_ids users tnames start_id).map Prod.fst = vm_keys users tnames
    ∧ ((generate_vm_ids users tnames start_id).map Prod.snd).Nodup
    ∧ (∀ v ∈ (generate_vm_ids users tnames start_id).map Prod.snd,
        start_id ≤ v ∧ v < start_id + users.length * tnames.length)
    ∧ (∀ (queries : List (Option (List Nat))) (b1 b2 : List User),
        create_terraform_configs_vm_ids users tnames queries b1
          = create_terraform_configs_vm_ids users tnames queries b2) := by
  have hform := generate_vm_ids_fresh users tnames start_id hnd
  refine ⟨hform, ?_, ?_, ?_, ?_, fun _ _ _ => rfl⟩
  · rw [hform, consecEntries_length, vm_keys_length]
  · rw [hform, consecEntries_fst]
  · rw [hform]
    exact consecEntries_snd_nodup _ _
  · intro v hv
    rw [hform] at hv
    have hb := consecEntries_snd_bounds _ _ _ hv
    rw [vm_keys_length] at hb
    exact hb

/-- C10 amended witness: three distinct users and two templates yield
six entries with values 700..705. -/
theorem generate_vm_ids_C10_amended_witness :
    (vm_keys [⟨"u1", "", "", ""⟩, ⟨"u2", "", "", ""⟩, ⟨"u3", "", "", ""⟩]
        ["web", "db"]).Nodup
    ∧ (generate_vm_ids [⟨"u1", "", "", ""⟩, ⟨"u2", "", "", ""⟩, ⟨"u3", "", "", ""⟩]
        ["web", "db"] 700).length = 3 * 2
    ∧ (generate_vm_ids [⟨"u1", "", "", ""⟩, ⟨"u2", "", "", ""⟩, ⟨"u3", "", "", ""⟩]
        ["web", "db"] 700).map Prod.snd = [700, 701, 702, 703, 704, 705] :=
  ⟨by decide,
    (generate_vm_ids_C10_amended [⟨"u1", "", "", ""⟩, ⟨"u2", "", "", ""⟩, ⟨"u3", "", "", ""⟩]
      ["web", "db"] 700 (by decide)).2.1,
    by decide⟩
